import Mathlib

/-!
Shallow embedding of the Rabbit stream cipher implementation in
`src/crypto/rabbit/rabbit.go` (package `rabbit`).

Machine integers (`uint32` in the source) are modelled as `Nat` with an
explicit reduction modulo `2^32` wherever the Go arithmetic can wrap.
Bytes are modelled as `Nat` values; the byte-extraction conversions
(`byte(x)` in Go) reduce modulo `256` exactly where the source does.
Fallible operations return the error value that the Go code returns.
-/

set_option autoImplicit false

namespace Rabbit

/-- The modulus `2^32` of all `uint32` arithmetic in the source. -/
def M32 : Nat := 4294967296

/-- Wrapping 32-bit addition (Go `+` on `uint32`). -/
def add32 (a b : Nat) : Nat := (a + b) % M32

/-- Wrapping 32-bit multiplication (Go `*` on `uint32`). -/
def mul32 (a b : Nat) : Nat := (a * b) % M32

/-- Truncating 32-bit left shift (Go `<<` on `uint32`). -/
def shl32 (a n : Nat) : Nat := (a <<< n) % M32

/-- Source `func rotl(v, n uint32) uint32 { return v<<n | v>>(32-n) }`. -/
def rotl (v n : Nat) : Nat := ((v <<< n) % M32) ||| (v >>> (32 - n))

/-- Source `func booltoi(b bool) uint32`. -/
def booltoi (b : Bool) : Nat := if b then 1 else 0

/-- Model of the Go array type `[8]uint32`. -/
structure Words8 where
  w0 : Nat
  w1 : Nat
  w2 : Nat
  w3 : Nat
  w4 : Nat
  w5 : Nat
  w6 : Nat
  w7 : Nat
deriving DecidableEq, Repr

/-- The 8 words as a list, in index order `0..7`. -/
def Words8.toList (w : Words8) : List Nat :=
  [w.w0, w.w1, w.w2, w.w3, w.w4, w.w5, w.w6, w.w7]

/-- The all-zero word array (Go zero value of `[8]uint32`). -/
def zero8 : Words8 := ⟨0, 0, 0, 0, 0, 0, 0, 0⟩

/-- Model of the Go struct `Cipher`: live state `x`, `c`, `carry`; the
master snapshot `cx`, `cc`, `ccarry`; and the leftover-keystream slice `r`. -/
structure Cipher where
  x : Words8
  c : Words8
  cx : Words8
  cc : Words8
  carry : Bool
  ccarry : Bool
  r : List Nat
deriving DecidableEq, Repr

/-- Model of the Go struct `KeySizeError{t, sz int}`. -/
structure KeySizeError where
  t : Nat
  sz : Nat
deriving DecidableEq, Repr

/-- Source `func rabbitCalcG(x uint32) uint32`:
`a = x&0xFFFF; b = x>>16; return ((((a*a)>>17 + a*b)>>15) + b*b)^(x*x)`.
Go operator precedence binds `>>` tighter than `+`, so the body is
`(((((a*a)>>17) + a*b) >> 15) + b*b) ^ (x*x)` with wrapping additions. -/
def rabbitCalcG (x : Nat) : Nat :=
  let a := x &&& 0xFFFF
  let b := x >>> 16
  (add32 ((add32 ((mul32 a a) >>> 17) (mul32 a b)) >>> 15) (mul32 b b)) ^^^ (mul32 x x)

/-- Source `func (c *Cipher) rabbitNext()`: one round of the next-state
function, transcribed line by line (counter chain with carry detection,
the eight g-values, then the new `x` words). -/
def rabbitNext (s : Cipher) : Cipher :=
  let c0 := add32 (add32 s.c.w0 0x4D34D34D) (booltoi s.carry)
  let c1 := add32 (add32 s.c.w1 0xD34D34D3) (booltoi (decide (c0 < s.c.w0)))
  let c2 := add32 (add32 s.c.w2 0x34D34D34) (booltoi (decide (c1 < s.c.w1)))
  let c3 := add32 (add32 s.c.w3 0x4D34D34D) (booltoi (decide (c2 < s.c.w2)))
  let c4 := add32 (add32 s.c.w4 0xD34D34D3) (booltoi (decide (c3 < s.c.w3)))
  let c5 := add32 (add32 s.c.w5 0x34D34D34) (booltoi (decide (c4 < s.c.w4)))
  let c6 := add32 (add32 s.c.w6 0x4D34D34D) (booltoi (decide (c5 < s.c.w5)))
  let c7 := add32 (add32 s.c.w7 0xD34D34D3) (booltoi (decide (c6 < s.c.w6)))
  let carry := decide (c7 < s.c.w7)
  let g0 := rabbitCalcG (add32 s.x.w0 c0)
  let g1 := rabbitCalcG (add32 s.x.w1 c1)
  let g2 := rabbitCalcG (add32 s.x.w2 c2)
  let g3 := rabbitCalcG (add32 s.x.w3 c3)
  let g4 := rabbitCalcG (add32 s.x.w4 c4)
  let g5 := rabbitCalcG (add32 s.x.w5 c5)
  let g6 := rabbitCalcG (add32 s.x.w6 c6)
  let g7 := rabbitCalcG (add32 s.x.w7 c7)
  let x0 := add32 (add32 g0 (rotl g7 16)) (rotl g6 16)
  let x1 := add32 (add32 g1 (rotl g0 8)) g7
  let x2 := add32 (add32 g2 (rotl g1 16)) (rotl g0 16)
  let x3 := add32 (add32 g3 (rotl g2 8)) g1
  let x4 := add32 (add32 g4 (rotl g3 16)) (rotl g2 16)
  let x5 := add32 (add32 g5 (rotl g4 8)) g3
  let x6 := add32 (add32 g6 (rotl g5 16)) (rotl g4 16)
  let x7 := add32 (add32 g7 (rotl g6 8)) g5
  { s with
    x := ⟨x0, x1, x2, x3, x4, x5, x6, x7⟩,
    c := ⟨c0, c1, c2, c3, c4, c5, c6, c7⟩,
    carry := carry }

/-- The fixed 4-iteration warm-up loop `for i := 0; i < 4; i++ { c.rabbitNext() }`
shared by `NewCipher` and `SetupIV`. -/
def warm4 (s : Cipher) : Cipher :=
  rabbitNext (rabbitNext (rabbitNext (rabbitNext s)))

/-- Little-endian 32-bit word from four bytes, as in
`uint32(b0) | uint32(b1)<<8 | uint32(b2)<<16 | uint32(b3)<<24`. -/
def le32 (b0 b1 b2 b3 : Nat) : Nat :=
  b0 ||| (b1 <<< 8) ||| (b2 <<< 16) ||| (b3 <<< 24)

/-- The four little-endian bytes of a 32-bit word, as produced by
`byte(d), byte(d>>8), byte(d>>16), byte(d>>24)`. -/
def wordBytes (d : Nat) : List Nat :=
  [d % 256, (d >>> 8) % 256, (d >>> 16) % 256, (d >>> 24) % 256]

/-- Output word 0: `c.x[0] ^ (c.x[5]>>16 ^ c.x[3]<<16)` (same formula in
`rabbitGen` and in both branches of `ProcessStream`). -/
def outWord0 (x : Words8) : Nat := x.w0 ^^^ ((x.w5 >>> 16) ^^^ shl32 x.w3 16)

/-- Output word 1: `c.x[2] ^ (c.x[7]>>16 ^ c.x[5]<<16)`. -/
def outWord1 (x : Words8) : Nat := x.w2 ^^^ ((x.w7 >>> 16) ^^^ shl32 x.w5 16)

/-- Output word 2: `c.x[4] ^ (c.x[1]>>16 ^ c.x[7]<<16)`. -/
def outWord2 (x : Words8) : Nat := x.w4 ^^^ ((x.w1 >>> 16) ^^^ shl32 x.w7 16)

/-- Output word 3: `c.x[6] ^ (c.x[3]>>16 ^ c.x[1]<<16)`. -/
def outWord3 (x : Words8) : Nat := x.w6 ^^^ ((x.w3 >>> 16) ^^^ shl32 x.w1 16)

/-- The 16 keystream bytes extracted from the post-round `x` words,
serialized little-endian word by word. -/
def keystreamBlock (x : Words8) : List Nat :=
  wordBytes (outWord0 x) ++ wordBytes (outWord1 x) ++
  wordBytes (outWord2 x) ++ wordBytes (outWord3 x)

/-- The key schedule of `NewCipher` (the code after the length check):
load the four little-endian key words, fill `x` and `c` by the fixed
formulas, run the 4-round warm-up, XOR `c[i] ^= x[(i+4)&7]`, and snapshot
the result into the master fields. -/
def keySetup (key : List Nat) : Cipher :=
  let b := fun i => key.getD i 0
  let k0 := le32 (b 0) (b 1) (b 2) (b 3)
  let k1 := le32 (b 4) (b 5) (b 6) (b 7)
  let k2 := le32 (b 8) (b 9) (b 10) (b 11)
  let k3 := le32 (b 12) (b 13) (b 14) (b 15)
  let x : Words8 :=
    ⟨k0, shl32 k3 16 ||| (k2 >>> 16),
     k1, shl32 k0 16 ||| (k3 >>> 16),
     k2, shl32 k1 16 ||| (k0 >>> 16),
     k3, shl32 k2 16 ||| (k1 >>> 16)⟩
  let c : Words8 :=
    ⟨rotl k2 16, (k0 &&& 0xFFFF0000) ||| (k1 &&& 0xFFFF),
     rotl k3 16, (k1 &&& 0xFFFF0000) ||| (k2 &&& 0xFFFF),
     rotl k0 16, (k2 &&& 0xFFFF0000) ||| (k3 &&& 0xFFFF),
     rotl k1 16, (k3 &&& 0xFFFF0000) ||| (k0 &&& 0xFFFF)⟩
  let s4 := warm4 { x := x, c := c, cx := zero8, cc := zero8,
                    carry := false, ccarry := false, r := [] }
  let cNew : Words8 :=
    ⟨s4.c.w0 ^^^ s4.x.w4, s4.c.w1 ^^^ s4.x.w5,
     s4.c.w2 ^^^ s4.x.w6, s4.c.w3 ^^^ s4.x.w7,
     s4.c.w4 ^^^ s4.x.w0, s4.c.w5 ^^^ s4.x.w1,
     s4.c.w6 ^^^ s4.x.w2, s4.c.w7 ^^^ s4.x.w3⟩
  { x := s4.x, c := cNew, cx := s4.x, cc := cNew,
    carry := s4.carry, ccarry := s4.carry, r := [] }

/-- Source `func NewCipher(key []byte) (*Cipher, os.Error)`.
Returns `KeySizeError{1, len(key)}` unless the key has exactly 16 bytes;
otherwise the fully initialized state. -/
def NewCipher (key : List Nat) : Except KeySizeError Cipher :=
  if key.length ≠ 16 then .error ⟨1, key.length⟩ else .ok (keySetup key)

/-- The new counter derived in `SetupIV` from the master counter `cc` and
the expanded IV words `d0, d1, d2, d3`. -/
def ivMix (cc : Words8) (iv : List Nat) : Words8 :=
  let b := fun i => iv.getD i 0
  let d0 := le32 (b 0) (b 1) (b 2) (b 3)
  let d2 := le32 (b 4) (b 5) (b 6) (b 7)
  let d1 := (d0 >>> 16) ||| (d2 &&& 0xFFFF0000)
  let d3 := shl32 d2 16 ||| (d0 &&& 0xFFFF)
  ⟨cc.w0 ^^^ d0, cc.w1 ^^^ d1, cc.w2 ^^^ d2, cc.w3 ^^^ d3,
   cc.w4 ^^^ d0, cc.w5 ^^^ d1, cc.w6 ^^^ d2, cc.w7 ^^^ d3⟩

/-- Source `func (c *Cipher) SetupIV(iv []byte) os.Error`.
The Go method mutates the receiver and returns an error; here the pair
holds the state after the call and the returned error (the state component
equals the input state whenever the error is non-nil, since the Go code
returns before any assignment). -/
def SetupIV (s : Cipher) (iv : List Nat) : Cipher × Option KeySizeError :=
  if iv.length ≠ 8 then (s, some ⟨2, iv.length⟩) else
  (warm4 { s with c := ivMix s.cc iv, x := s.cx, carry := s.ccarry }, none)

/-- One execution of the `for i < l` loop of `ProcessStream` (the part after
the pending bytes have been handled), with an explicit fuel argument.
Each loop iteration consumes at least one buffer byte, so `buf.length`
units of fuel make the model exhaust the buffer exactly as the loop does.
Fast path (`n >= 16`): XOR a whole 16-byte block and continue.
Slow path (`n < 16`): XOR the needed prefix of the block and store the
unused suffix of the block in `r` (in Go, the leftover keystream bytes are
XORed into the freshly zeroed slice `c.r`, i.e. stored as they are). -/
def processBlocksAux : Nat → Cipher → List Nat → Cipher × List Nat
  | 0, s, _ => (s, [])
  | fuel + 1, s, buf =>
    if buf = [] then (s, []) else
    let s1 := rabbitNext s
    let ks := keystreamBlock s1.x
    if 16 ≤ buf.length then
      let res := processBlocksAux fuel s1 (buf.drop 16)
      (res.1, List.zipWith HXor.hXor (buf.take 16) ks ++ res.2)
    else
      ({ s1 with r := ks.drop buf.length }, List.zipWith HXor.hXor buf ks)

/-- The block-processing loop of `ProcessStream`, started with enough fuel. -/
def processBlocks (s : Cipher) (buf : List Nat) : Cipher × List Nat :=
  processBlocksAux buf.length s buf

/-- Source `func (c *Cipher) ProcessStream(buf []byte)`.
The Go method XORs keystream into `buf` in place; here the pair holds the
state after the call and the buffer contents after the call.
When `len(c.r) > 0` the source first XORs `c.r[i]` into `buf[i]` for
`i < min(len(c.r), len(buf))` and then executes `c.r = nil`
unconditionally, so any unconsumed suffix of the pending bytes is
discarded; `List.zipWith` truncates at the shorter list, which yields
exactly those `min(len(c.r), len(buf))` XORed bytes. -/
def ProcessStream (s : Cipher) (buf : List Nat) : Cipher × List Nat :=
  if 0 < s.r.length then
    let res := processBlocks { s with r := [] } (buf.drop (min s.r.length buf.length))
    (res.1, List.zipWith HXor.hXor buf s.r ++ res.2)
  else
    processBlocks s buf

/-- Source `func (c *Cipher) ResetCipher()`: restore `c`, `x`, `carry` from
the master snapshot; `r` (and the snapshot itself) are not touched. -/
def ResetCipher (s : Cipher) : Cipher :=
  { s with c := s.cc, x := s.cx, carry := s.ccarry }

/-- Source `func (c *Cipher) Reset()`: zero `x`, `c`, `cx`, `cc`.
The final line of the source reads `c.carry, c.carry = false, false`,
assigning `carry` twice and never assigning `ccarry`; the model reproduces
that faithfully (`ccarry` and `r` are left unchanged). -/
def Reset (s : Cipher) : Cipher :=
  { s with x := zero8, c := zero8, cx := zero8, cc := zero8, carry := false }

/-! ### Concrete inputs used to evaluate the model -/

/-- The all-zero 16-byte key (the published known-answer-test key). -/
def zeroKey : List Nat := List.replicate 16 0

/-- The all-zero 8-byte IV. -/
def zeroIV : List Nat := List.replicate 8 0

/-- The all-zero cipher state (Go zero value of `Cipher`). -/
def zeroCipher : Cipher :=
  { x := zero8, c := zero8, cx := zero8, cc := zero8,
    carry := false, ccarry := false, r := [] }

/-- The state `NewCipher` returns for a given key (test-harness accessor;
for a 16-byte key `NewCipher` always succeeds). -/
def cipherOf (key : List Nat) : Cipher :=
  match NewCipher key with
  | .ok c => c
  | .error _ => zeroCipher

/-! ### Specification-side definitions

These follow the wording of the specification sentences quoted by the
claims; the theorems below compare them with the definitions transcribed
from the source. -/

/-- The counter constant actually used for word `i` in the source: three
constants `0x4D34D34D, 0xD34D34D3, 0x34D34D34` cycling with period 3. -/
def aConst (i : Nat) : Nat :=
  if i % 3 = 0 then 0x4D34D34D else if i % 3 = 1 then 0xD34D34D3 else 0x34D34D34

/-- The counter constant as described by claim C4: two constants alternated
by the parity of the index. -/
def aConstClaim (i : Nat) : Nat :=
  if i % 2 = 0 then 0x4D34D34D else 0xD34D34D3

/-- The counter-update chain described in §4.3 of the specification, as a
strictly sequential fold over the words in index order: word `i` becomes
`c[i] + A(i) + carry_in` modulo `2^32`, where `carry_in` is the incoming
round carry for the first word and, for each later word, `1` exactly when
the just-computed previous word wrapped below its pre-update value; the
second component is the final carry flag, set exactly when the last word
wrapped. The constant schedule `A` is a parameter so that the source's
schedule and the claim's schedule can both be plugged in. -/
def counterChain (A : Nat → Nat) (i : Nat) (carry : Bool) :
    List Nat → List Nat × Bool
  | [] => ([], carry)
  | cw :: rest =>
    let cw' := add32 (add32 cw (A i)) (booltoi carry)
    let res := counterChain A (i + 1) (decide (cw' < cw)) rest
    (cw' :: res.1, res.2)

/-- The g-function as worded in the specification (§4.3 and claim C9):
split `u` into low 16 bits `a` and high 16 bits `b`; `s = a*a`;
`t = ((s >> 17) + a*b) >> 15`; result `(t + b*b) XOR (u*u)`, with all
arithmetic modulo `2^32`. -/
def gSpec (u : Nat) : Nat :=
  let a := u % 2 ^ 16
  let b := u / 2 ^ 16
  let s := a * a % M32
  let t := ((s / 2 ^ 17 + a * b) % M32) / 2 ^ 15
  ((t + b * b) % M32) ^^^ (u * u % M32)

/-! ### Theorems for the claims -/

/-- Claim C9: for every 32-bit input `u`, `rabbitCalcG u` equals the
specification's reference formula
`(((((a*a) >> 17) + a*b) >> 15) + b*b) XOR (u*u)` with `a` the low 16 bits
of `u`, `b` the high 16 bits, and all arithmetic modulo `2^32`. -/
theorem rabbitCalcG_eq_gSpec (u : Nat) (_hu : u < M32) : rabbitCalcG u = gSpec u := by
  have ha : u &&& 0xFFFF = u % 2 ^ 16 := by
    have h := Nat.and_pow_two_sub_one_eq_mod u 16
    norm_num at h ⊢
    exact h
  have hb : u >>> 16 = u / 2 ^ 16 := Nat.shiftRight_eq_div_pow u 16
  unfold rabbitCalcG gSpec add32 mul32
  simp only [ha, hb, Nat.shiftRight_eq_div_pow]
  simp [Nat.add_mod_mod, Nat.mod_add_mod]

/-- Witness for `rabbitCalcG_eq_gSpec` at the concrete input `u = 305419896`. -/
theorem rabbitCalcG_eq_gSpec_witness :
    305419896 < M32 ∧ rabbitCalcG 305419896 = gSpec 305419896 :=
  ⟨by decide, rabbitCalcG_eq_gSpec 305419896 (by decide)⟩

/-- Claim C4, counterexample: the counter update does not follow the rule
"two odd 32-bit constants alternated by the parity of the index".
At the all-zero state the source adds `0x34D34D34` to `c[2]`, while the
parity rule would add `0x4D34D34D`, so the two computations disagree. -/
theorem rabbitNext_counter_two_const_false :
    ¬ ((rabbitNext zeroCipher).c.toList =
         (counterChain aConstClaim 0 zeroCipher.carry zeroCipher.c.toList).1 ∧
       (rabbitNext zeroCipher).carry =
         (counterChain aConstClaim 0 zeroCipher.carry zeroCipher.c.toList).2) := by
  decide

/-- Claim C4, amended: in `rabbitNext` the eight counter words are updated
in fixed index order 0..7 by adding to `c[i]` the constant
`(0x4D34D34D, 0xD34D34D3, 0x34D34D34)[i % 3]` (three cipher-specific
constants cycling with period 3, the third of which is even — not two odd
constants alternated by parity) plus a carry-in which for `i = 0` is the
previous round's carry flag and for `i > 0` is 1 exactly when the
just-computed `c[i-1]` wrapped below its pre-update value; after word 7
the carry flag is set exactly when `c[7]` wrapped below its pre-update
value. -/
theorem rabbitNext_counter_spec (s : Cipher) :
    (rabbitNext s).c.toList =
      (counterChain aConst 0 s.carry s.c.toList).1 ∧
    (rabbitNext s).carry =
      (counterChain aConst 0 s.carry s.c.toList).2 := by
  exact ⟨rfl, rfl⟩

/-- Claim C3: after `Reset` on the state produced by the all-zero key,
`x`, `c`, `cx`, `cc` are zero and `carry` is false, but the master carry
flag `ccarry` (which is `true` for this key) is left `true`: the source
line `c.carry, c.carry = false, false` assigns `carry` twice and never
clears `ccarry`, contradicting the purge postcondition. -/
theorem reset_leaves_master_carry :
    (cipherOf zeroKey).ccarry = true ∧
    Reset (cipherOf zeroKey) =
      { x := zero8, c := zero8, cx := zero8, cc := zero8,
        carry := false, ccarry := true, r := [] } := by
  decide

/-- Claim C2: calling `ProcessStream` with a zero-length buffer is not a
no-op on a state whose pending buffer is non-empty. After processing one
byte from the all-zero-key state the pending buffer holds 15 bytes; a
zero-length call then leaves `x` (and the rest of the live state)
unchanged and produces no output, but clears the pending buffer. -/
theorem processStream_nil_clears_pending :
    ((ProcessStream (cipherOf zeroKey) [0]).1.r.length = 15) ∧
    ((ProcessStream ((ProcessStream (cipherOf zeroKey) [0]).1) []).2 = []) ∧
    ((ProcessStream ((ProcessStream (cipherOf zeroKey) [0]).1) []).1.x =
       (ProcessStream (cipherOf zeroKey) [0]).1.x) ∧
    ((ProcessStream ((ProcessStream (cipherOf zeroKey) [0]).1) []).1.c =
       (ProcessStream (cipherOf zeroKey) [0]).1.c) ∧
    ((ProcessStream ((ProcessStream (cipherOf zeroKey) [0]).1) []).1.r = []) := by
  decide

/-- Claim C1: streaming equivalence fails. Processing 16 zero bytes from
the all-zero-key state in chunks of 1, 5 and 10 bytes yields different
output than processing them in a single call: the 5-byte call finds 15
pending bytes, consumes only 5 of them, and then discards the remaining
10 (`c.r = nil`), so the 10-byte call draws on a fresh keystream block
instead of the stored suffix. -/
theorem processStream_chunking_diverges :
    (let s0 := cipherOf zeroKey
     let p1 := ProcessStream s0 (List.replicate 1 0)
     let p2 := ProcessStream p1.1 (List.replicate 5 0)
     let p3 := ProcessStream p2.1 (List.replicate 10 0)
     p1.2 ++ p2.2 ++ p3.2 ≠ (ProcessStream s0 (List.replicate 16 0)).2) := by
  decide

/-! ### Frame lemmas -/

theorem rabbitNext_cx (s : Cipher) : (rabbitNext s).cx = s.cx := rfl

theorem rabbitNext_cc (s : Cipher) : (rabbitNext s).cc = s.cc := rfl

theorem rabbitNext_ccarry (s : Cipher) : (rabbitNext s).ccarry = s.ccarry := rfl

theorem rabbitNext_r (s : Cipher) : (rabbitNext s).r = s.r := rfl

theorem warm4_cx (s : Cipher) : (warm4 s).cx = s.cx := rfl

theorem warm4_cc (s : Cipher) : (warm4 s).cc = s.cc := rfl

theorem warm4_ccarry (s : Cipher) : (warm4 s).ccarry = s.ccarry := rfl

theorem warm4_r (s : Cipher) : (warm4 s).r = s.r := rfl

/-- On a valid 8-byte IV, `SetupIV` takes the non-error branch. -/
theorem SetupIV_ok (s : Cipher) (iv : List Nat) (h : iv.length = 8) :
    SetupIV s iv =
      (warm4 { s with c := ivMix s.cc iv, x := s.cx, carry := s.ccarry }, none) := by
  unfold SetupIV
  rw [if_neg (by simp [h])]

/-- The method `SetupIV` reads the master snapshot and the pending bytes but never
writes them (in both the error branch and the success branch). -/
theorem SetupIV_frame (s : Cipher) (iv : List Nat) :
    ((SetupIV s iv).1).cx = s.cx ∧ ((SetupIV s iv).1).cc = s.cc ∧
    ((SetupIV s iv).1).ccarry = s.ccarry ∧ ((SetupIV s iv).1).r = s.r := by
  unfold SetupIV
  split
  · exact ⟨rfl, rfl, rfl, rfl⟩
  · exact ⟨rfl, rfl, rfl, rfl⟩

theorem keySetup_fields (key : List Nat) :
    (keySetup key).cx = (keySetup key).x ∧ (keySetup key).cc = (keySetup key).c ∧
    (keySetup key).ccarry = (keySetup key).carry ∧ (keySetup key).r = [] :=
  ⟨rfl, rfl, rfl, rfl⟩

/-- A successfully constructed cipher has live state equal to its master
snapshot and an empty pending buffer. -/
theorem NewCipher_ok_fields {key : List Nat} {c : Cipher}
    (h : NewCipher key = .ok c) :
    c.cx = c.x ∧ c.cc = c.c ∧ c.ccarry = c.carry ∧ c.r = [] := by
  unfold NewCipher at h
  by_cases hk : key.length ≠ 16
  · rw [if_pos hk] at h
    cases h
  · rw [if_neg hk] at h
    injection h with h
    subst h
    exact keySetup_fields key

/-! ### Main theorems (continued) -/

/-- Claim C6: `NewCipher` fails with the key-size error `⟨1, len⟩` exactly
when the key length is not 16, `SetupIV` fails with the IV-size error
`⟨2, len⟩` exactly when the IV length is not 8, and a failing `SetupIV`
returns the receiver state completely unchanged (reject-before-mutate).
All other operations of the model are total functions, so no other
operation can fail. -/
theorem size_validation :
    (∀ key : List Nat, key.length ≠ 16 → NewCipher key = .error ⟨1, key.length⟩) ∧
    (∀ key : List Nat, key.length = 16 → ∃ c, NewCipher key = .ok c) ∧
    (∀ (s : Cipher) (iv : List Nat), iv.length ≠ 8 →
        SetupIV s iv = (s, some ⟨2, iv.length⟩)) ∧
    (∀ (s : Cipher) (iv : List Nat), iv.length = 8 → (SetupIV s iv).2 = none) := by
  refine ⟨fun key h => ?_, fun key h => ?_, fun s iv h => ?_, fun s iv h => ?_⟩
  · unfold NewCipher
    rw [if_pos h]
  · unfold NewCipher
    rw [if_neg (by simp [h])]
    exact ⟨keySetup key, rfl⟩
  · unfold SetupIV
    rw [if_pos h]
  · rw [SetupIV_ok s iv h]

/-- Witness for `size_validation` at concrete inputs: a 15-byte key, the
16-byte zero key, a 1-byte IV, and the 8-byte zero IV. -/
theorem size_validation_witness :
    NewCipher (List.replicate 15 0) = .error ⟨1, (List.replicate 15 (0 : Nat)).length⟩ ∧
    (∃ c, NewCipher zeroKey = .ok c) ∧
    SetupIV zeroCipher [0] = (zeroCipher, some ⟨2, ([0] : List Nat).length⟩) ∧
    (SetupIV zeroCipher zeroIV).2 = none :=
  ⟨size_validation.1 (List.replicate 15 0) (by decide),
   size_validation.2.1 zeroKey (by decide),
   size_validation.2.2.1 zeroCipher [0] (by decide),
   size_validation.2.2.2 zeroCipher zeroIV (by decide)⟩

/-- Claim C7: IV setup is idempotent. For every state and every 8-byte IV,
running `SetupIV` twice with the same IV produces exactly the state of a
single run (in particular the same `x`, `c` and `carry`), because the
counter is always re-derived from the master `cc` and `x`/`carry` are
restored from `cx`/`ccarry`, none of which the first run modified. -/
theorem setupIV_idempotent (s : Cipher) (iv : List Nat) (h : iv.length = 8) :
    (SetupIV (SetupIV s iv).1 iv).1 = (SetupIV s iv).1 := by
  rw [SetupIV_ok s iv h]
  rw [SetupIV_ok _ iv h]
  simp [warm4_cx, warm4_cc, warm4_ccarry, warm4_r]

/-- Witness for `setupIV_idempotent` at the zero state and zero IV. -/
theorem setupIV_idempotent_witness :
    zeroIV.length = 8 ∧
    (SetupIV (SetupIV zeroCipher zeroIV).1 zeroIV).1 = (SetupIV zeroCipher zeroIV).1 :=
  ⟨by decide, setupIV_idempotent zeroCipher zeroIV (by decide)⟩

/-- Claim C10 (implicit): `SetupIV` leaves the pending leftover-keystream
buffer unchanged, so when the pending buffer is non-empty the first byte
XORed by the next `ProcessStream` call is the stored pending byte — i.e.
keystream generated under the previous IV, not the new one. -/
theorem setupIV_preserves_pending (s : Cipher) (iv : List Nat) (_h : iv.length = 8) :
    ((SetupIV s iv).1).r = s.r ∧
    (∀ (b : Nat) (bs : List Nat) (p : Nat) (ps : List Nat), s.r = p :: ps →
      ((ProcessStream (SetupIV s iv).1 (b :: bs)).2).head? = some (b ^^^ p)) := by
  have hfr : ((SetupIV s iv).1).r = s.r := (SetupIV_frame s iv).2.2.2
  refine ⟨hfr, fun b bs p ps hp => ?_⟩
  have hr : ((SetupIV s iv).1).r = p :: ps := hfr.trans hp
  unfold ProcessStream
  rw [if_pos (by rw [hr]; simp)]
  rw [hr]
  simp

/-- Witness for `setupIV_preserves_pending`: a state with one pending byte
`7`, the zero IV, and a 1-byte buffer `[1]`. -/
theorem setupIV_preserves_pending_witness :
    ((SetupIV { zeroCipher with r := [7] } zeroIV).1).r = [7] ∧
    ((ProcessStream (SetupIV { zeroCipher with r := [7] } zeroIV).1 [1]).2).head? =
      some (1 ^^^ 7) :=
  ⟨(setupIV_preserves_pending { zeroCipher with r := [7] } zeroIV (by decide)).1,
   (setupIV_preserves_pending { zeroCipher with r := [7] } zeroIV (by decide)).2
     1 [] 7 [] rfl⟩

/-! ### Operation sequences -/

/-- The operations that can be applied to an existing cipher state. -/
inductive Op where
  | setupIV : List Nat → Op
  | process : List Nat → Op
  | resetCipher : Op
  | reset : Op

/-- Apply one operation (only its effect on the state). -/
def applyOp (s : Cipher) : Op → Cipher
  | .setupIV iv => (SetupIV s iv).1
  | .process buf => (ProcessStream s buf).1
  | .resetCipher => ResetCipher s
  | .reset => Reset s

/-- Run a sequence of operations from a state. -/
def runOps (s : Cipher) (ops : List Op) : Cipher := ops.foldl applyOp s

/-- Run a sequence of `ProcessStream` calls from a state (only the state). -/
def runStreams (s : Cipher) (bufs : List (List Nat)) : Cipher :=
  bufs.foldl (fun t b => (ProcessStream t b).1) s

theorem keystreamBlock_length (x : Words8) : (keystreamBlock x).length = 16 := rfl

/-- The block loop keeps the pending buffer shorter than 16 bytes: the
slow path stores `16 - len` block bytes with `1 ≤ len ≤ 15`, the fast
path and the exits leave `r` as they found it. -/
theorem processBlocksAux_r (fuel : Nat) :
    ∀ (s : Cipher) (buf : List Nat), s.r.length < 16 →
      ((processBlocksAux fuel s buf).1).r.length < 16 := by
  induction fuel with
  | zero => exact fun s buf h => h
  | succ fuel ih =>
    intro s buf h
    unfold processBlocksAux
    split
    · exact h
    · split
      · exact ih (rabbitNext s) (buf.drop 16) (by rw [rabbitNext_r]; exact h)
      · have hpos : 0 < buf.length := List.length_pos.mpr (by assumption)
        simp only [List.length_drop, keystreamBlock_length]
        omega

/-- The block loop never writes the master snapshot. -/
theorem processBlocksAux_masters (fuel : Nat) :
    ∀ (s : Cipher) (buf : List Nat),
      ((processBlocksAux fuel s buf).1).cx = s.cx ∧
      ((processBlocksAux fuel s buf).1).cc = s.cc ∧
      ((processBlocksAux fuel s buf).1).ccarry = s.ccarry := by
  induction fuel with
  | zero => exact fun s buf => ⟨rfl, rfl, rfl⟩
  | succ fuel ih =>
    intro s buf
    unfold processBlocksAux
    split
    · exact ⟨rfl, rfl, rfl⟩
    · split
      · exact ih (rabbitNext s) (buf.drop 16)
      · exact ⟨rfl, rfl, rfl⟩

/-- After any `ProcessStream` call the pending buffer holds fewer than 16
bytes (the call starts by emptying `r` whenever it is non-empty). -/
theorem ProcessStream_r (s : Cipher) (buf : List Nat) :
    ((ProcessStream s buf).1).r.length < 16 := by
  unfold ProcessStream processBlocks
  split
  · exact processBlocksAux_r _ _ _ (by simp)
  · exact processBlocksAux_r _ _ _ (by omega)

/-- The method `ProcessStream` never writes the master snapshot. -/
theorem ProcessStream_masters (s : Cipher) (buf : List Nat) :
    ((ProcessStream s buf).1).cx = s.cx ∧
    ((ProcessStream s buf).1).cc = s.cc ∧
    ((ProcessStream s buf).1).ccarry = s.ccarry := by
  unfold ProcessStream processBlocks
  split
  · exact processBlocksAux_masters _ _ _
  · exact processBlocksAux_masters _ _ _

/-- No sequence of `ProcessStream` calls writes the master snapshot. -/
theorem runStreams_masters (bufs : List (List Nat)) :
    ∀ s : Cipher,
      (runStreams s bufs).cx = s.cx ∧
      (runStreams s bufs).cc = s.cc ∧
      (runStreams s bufs).ccarry = s.ccarry := by
  induction bufs with
  | nil => exact fun s => ⟨rfl, rfl, rfl⟩
  | cons b bs ih =>
    intro s
    have h1 := ProcessStream_masters s b
    have h2 := ih ((ProcessStream s b).1)
    exact ⟨h2.1.trans h1.1, h2.2.1.trans h1.2.1, h2.2.2.trans h1.2.2⟩

/-- Claim C8: starting from any state returned by `NewCipher`, after every
sequence of `SetupIV`, `ProcessStream`, `ResetCipher` and `Reset`
operations the pending buffer `r` holds strictly fewer than 16 bytes; and
`SetupIV`, `ResetCipher` and `Reset` leave `r` exactly as it was, so only
`ProcessStream` ever fills, consumes or clears it. -/
theorem pending_invariant :
    (∀ (key : List Nat) (c : Cipher) (ops : List Op),
      NewCipher key = .ok c → (runOps c ops).r.length < 16) ∧
    (∀ (s : Cipher) (iv : List Nat), ((SetupIV s iv).1).r = s.r) ∧
    (∀ s : Cipher, (ResetCipher s).r = s.r) ∧
    (∀ s : Cipher, (Reset s).r = s.r) := by
  have inv : ∀ (ops : List Op) (s : Cipher), s.r.length < 16 →
      (runOps s ops).r.length < 16 := by
    intro ops
    induction ops with
    | nil => exact fun s h => h
    | cons op rest ih =>
      intro s h
      have hstep : (applyOp s op).r.length < 16 := by
        cases op with
        | setupIV iv =>
          have := (SetupIV_frame s iv).2.2.2
          simpa [applyOp, this] using h
        | process buf => exact ProcessStream_r s buf
        | resetCipher => simpa [applyOp, ResetCipher] using h
        | reset => simpa [applyOp, Reset] using h
      exact ih (applyOp s op) hstep
  refine ⟨fun key c ops h => ?_, fun s iv => (SetupIV_frame s iv).2.2.2,
          fun s => rfl, fun s => rfl⟩
  have hc := (NewCipher_ok_fields h).2.2.2
  exact inv ops c (by rw [hc]; simp)

/-- Witness for `pending_invariant`: zero key, one 1-byte `ProcessStream`
call, and the frame conjuncts at the zero state. -/
theorem pending_invariant_witness :
    (runOps (cipherOf zeroKey) [Op.process [0]]).r.length < 16 ∧
    ((SetupIV zeroCipher zeroIV).1).r = zeroCipher.r ∧
    (ResetCipher zeroCipher).r = zeroCipher.r ∧
    (Reset zeroCipher).r = zeroCipher.r :=
  ⟨pending_invariant.1 zeroKey (cipherOf zeroKey) [Op.process [0]] (by rfl),
   pending_invariant.2.1 zeroCipher zeroIV,
   pending_invariant.2.2.1 zeroCipher,
   pending_invariant.2.2.2 zeroCipher⟩

set_option maxRecDepth 20000 in
/-- Claim C5, counterexample: `ResetCipher` followed by `SetupIV` with the
original IV does not always reproduce the fresh keystream. With the zero
key and zero IV, processing one byte leaves 15 pending bytes; after
`ResetCipher` and `SetupIV` those stale bytes are still consumed first,
so the next output byte differs from the fresh one. -/
theorem resetCipher_then_setupIV_diverges :
    (ProcessStream (SetupIV (ResetCipher
        ((ProcessStream ((SetupIV (cipherOf zeroKey) zeroIV).1) [0]).1)) zeroIV).1
      [0]).2 ≠
    (ProcessStream ((SetupIV (cipherOf zeroKey) zeroIV).1) [0]).2 := by
  decide

/-- Claim C5, amended: for every 16-byte key, 8-byte IV and sequence of
`ProcessStream` calls performed in between, **provided the pending buffer
is empty when `ResetCipher` is called** (e.g. the processed byte counts
are multiples of 16), `ResetCipher` followed by `SetupIV` with the
original IV restores exactly the state of a fresh `NewCipher` + `SetupIV`
sequence, hence all subsequent keystream output is identical. Without
that proviso the claim fails (`resetCipher_then_setupIV_diverges`)
because `ResetCipher` does not clear the pending buffer. -/
theorem resetCipher_then_setupIV (key iv : List Nat) (bufs : List (List Nat))
    (c : Cipher) (hc : NewCipher key = .ok c) (_hiv : iv.length = 8)
    (hr : (runStreams ((SetupIV c iv).1) bufs).r = []) :
    (SetupIV (ResetCipher (runStreams ((SetupIV c iv).1) bufs)) iv).1 =
      (SetupIV c iv).1 := by
  obtain ⟨f1, f2, f3, f4⟩ := NewCipher_ok_fields hc
  have hm := runStreams_masters bufs ((SetupIV c iv).1)
  have hiv := SetupIV_frame c iv
  have e1 : (runStreams ((SetupIV c iv).1) bufs).cx = c.cx := hm.1.trans hiv.1
  have e2 : (runStreams ((SetupIV c iv).1) bufs).cc = c.cc := hm.2.1.trans hiv.2.1
  have e3 : (runStreams ((SetupIV c iv).1) bufs).ccarry = c.ccarry :=
    hm.2.2.trans hiv.2.2.1
  have hres : ResetCipher (runStreams ((SetupIV c iv).1) bufs) = c := by
    have h7 : Cipher.mk (runStreams ((SetupIV c iv).1) bufs).cx
        (runStreams ((SetupIV c iv).1) bufs).cc
        (runStreams ((SetupIV c iv).1) bufs).cx
        (runStreams ((SetupIV c iv).1) bufs).cc
        (runStreams ((SetupIV c iv).1) bufs).ccarry
        (runStreams ((SetupIV c iv).1) bufs).ccarry
        (runStreams ((SetupIV c iv).1) bufs).r
        = Cipher.mk c.x c.c c.cx c.cc c.carry c.ccarry c.r := by
      rw [e1, e2, e3, hr, f1, f2, f3, f4]
    exact h7
  rw [hres]

set_option maxRecDepth 20000 in
/-- Witness for `resetCipher_then_setupIV`: zero key, zero IV and one
16-byte call (which leaves the pending buffer empty). -/
theorem resetCipher_then_setupIV_witness :
    (runStreams ((SetupIV (cipherOf zeroKey) zeroIV).1) [List.replicate 16 0]).r = [] ∧
    (SetupIV (ResetCipher
        (runStreams ((SetupIV (cipherOf zeroKey) zeroIV).1) [List.replicate 16 0]))
      zeroIV).1 = (SetupIV (cipherOf zeroKey) zeroIV).1 :=
  ⟨by decide,
   resetCipher_then_setupIV zeroKey zeroIV [List.replicate 16 0] (cipherOf zeroKey)
     (by rfl) (by decide) (by decide)⟩

end Rabbit
